import Mathlib

/-!
Verification of the brio snippet-extraction engine (cmd/extract.go and
cmd/plugins): the query-string parser (parseCategoryArg / addToCategoryMap),
the category/domain matcher (snippetMatches), the tag-line recognizer
(parseTagJSON, commentParser.parseLine) and the per-file scanner
(extractSnippets), embedded shallowly over lists of characters.

Strings are modelled as lists of characters (type Str below); Go maps
from string to string-slice are modelled as association lists in insertion
order (type CatMap).  All definitions follow the Go source line by line.
-/

set_option maxHeartbeats 1000000

namespace Brio

/-- A Go string, modelled as its list of characters. -/
abbrev Str := List Char

/-- A Go value of type map from string to string slice, modelled as an
association list in insertion order. -/
abbrev CatMap := List (Str × List Str)

/-- Whitespace class of Go's unicode.IsSpace restricted to ASCII, as used by
strings.TrimSpace. -/
def isSpaceGo (c : Char) : Bool :=
  c = ' ' || c = '\t' || c = '\n' || c = '\x0b' || c = '\x0c' || c = '\r'

/-- Go strings.TrimSpace (ASCII whitespace). -/
def trimSpace (s : Str) : Str :=
  (((s.dropWhile isSpaceGo).reverse).dropWhile isSpaceGo).reverse

/-- Go strings.Split with a one-character separator: splits at every
occurrence of the separator. -/
def splitOnChar (sep : Char) : Str → List Str
  | [] => [[]]
  | c :: rest =>
      let r := splitOnChar sep rest
      if c = sep then [] :: r
      else
        match r with
        | [] => [[c]]
        | p :: ps => (c :: p) :: ps

/-- Go strings.SplitN with limit 2 and a one-character separator: the part
before the first occurrence of the separator, and everything after it.
Only used when the separator is known to occur. -/
def splitFirst (sep : Char) : Str → Str × Str
  | [] => ([], [])
  | c :: rest =>
      if c = sep then ([], rest)
      else
        let r := splitFirst sep rest
        (c :: r.1, r.2)

/-- Lookup in a CatMap association list, first binding wins (Go maps have
unique keys, so insertion order never creates duplicates). -/
def lookupCat (m : CatMap) (k : Str) : Option (List Str) :=
  match m with
  | [] => none
  | (k', v) :: rest => if k' = k then some v else lookupCat rest k

/-- Replace the value bound to a key of a CatMap (first binding). -/
def setCat (m : CatMap) (k : Str) (v : List Str) : CatMap :=
  match m with
  | [] => []
  | (k', v') :: rest =>
      if k' = k then (k', v) :: rest else (k', v') :: setCat rest k v

/-- addToCategoryMap from cmd/extract.go: ensures the category key exists,
then either appends a non-empty domain (skipping duplicates) or, for an
empty domain on a category whose slice is empty, stores the single empty
string. -/
def addToCategoryMap (catMap : CatMap) (category domain : Str) : CatMap :=
  let m1 := if (lookupCat catMap category).isSome then catMap
            else catMap ++ [(category, [])]
  let doms := (lookupCat m1 category).getD []
  if domain ≠ [] then
    if doms.contains domain then m1 else setCat m1 category (doms ++ [domain])
  else
    if doms = [] then setCat m1 category [[]] else m1

/-- The loop body of parseCategoryArg: one comma-separated part at a time,
threading the carried-forward current domain. -/
def parseCategoryLoop : List Str → Str → CatMap → CatMap
  | [], _, acc => acc
  | part :: rest, currentDomain, acc =>
      let p := trimSpace part
      if p.contains ':' then
        let sp := splitFirst ':' p
        let d := trimSpace sp.1
        parseCategoryLoop rest d (addToCategoryMap acc (trimSpace sp.2) d)
      else
        parseCategoryLoop rest currentDomain (addToCategoryMap acc p currentDomain)

/-- parseCategoryArg from cmd/extract.go: parses the user query string into
a category-to-domains map, with domain carry-forward across bare terms. -/
def parseCategoryArg (categoryArg : Str) : CatMap :=
  if categoryArg = [] then []
  else parseCategoryLoop (splitOnChar ',' categoryArg) [] []

/-- One snippet category satisfies the query map (the body of the loop of
snippetMatches): the category is a key of the query and either the query's
domain slice is empty or some snippet domain equals some requested domain. -/
def categorySatisfies (catMap : CatMap) (entry : Str × List Str) : Bool :=
  match lookupCat catMap entry.1 with
  | none => false
  | some requestedDomains =>
      requestedDomains.isEmpty ||
        entry.2.any (fun sd => requestedDomains.any (fun rd => sd = rd))

/-- snippetMatches from cmd/extract.go: an empty query matches everything;
otherwise some snippet category must satisfy the query. -/
def snippetMatches (sCategories : CatMap) (catMap : CatMap) : Bool :=
  if catMap.length = 0 then true
  else sCategories.any (categorySatisfies catMap)

/-! ### Tag-line recognizer: the single-line tag regexes

The Go patterns are, with QuoteMeta applied to the comment token:
case-insensitive single-comment-token, whitespace, a tag character
followed by a colon, whitespace, an opening brace.  Since none of the
whitespace characters equals the required next literal character, RE2
backtracking over a greedy whitespace star is equivalent to maximal-munch
whitespace skipping. -/

/-- Case-insensitive character comparison, as RE2's i-flag acts on ASCII. -/
def eqCI (a b : Char) : Bool := a.toLower = b.toLower

/-- Consume a literal pattern case-insensitively at the head of a string. -/
def dropLitCI : Str → Str → Option Str
  | [], s => some s
  | _, [] => none
  | p :: ps, c :: cs => if eqCI p c then dropLitCI ps cs else none

/-- The RE2 whitespace class: tab, newline, form feed, carriage return,
space. -/
def isWS (c : Char) : Bool :=
  c = '\t' || c = '\n' || c = '\x0c' || c = '\r' || c = ' '

/-- The single-line tag pattern anchored at the current position: comment
token (case-insensitive), whitespace star, the tag character, a colon,
whitespace star, an opening brace. -/
def matchTagAt (single : Str) (tagChar : Char) (s : Str) : Bool :=
  match dropLitCI single s with
  | none => false
  | some r1 =>
      match r1.dropWhile isWS with
      | c :: r2 =>
          c = tagChar &&
            match r2 with
            | ':' :: r3 =>
                match r3.dropWhile isWS with
                | '{' :: _ => true
                | _ => false
            | _ => false
      | [] => false

/-- MatchString of the single-line tag pattern: the pattern matches at some
position of the line. -/
def containsTagFrom (single : Str) (tagChar : Char) : Str → Bool
  | [] => matchTagAt single tagChar []
  | c :: rest => matchTagAt single tagChar (c :: rest) || containsTagFrom single tagChar rest

/-- Plain substring containment (the block-comment token patterns are
QuoteMeta literals without the i-flag). -/
def containsSub (pat : Str) : Str → Bool
  | [] => pat.isPrefixOf []
  | c :: rest => pat.isPrefixOf (c :: rest) || containsSub pat rest

/-- Index of the first occurrence of a character. -/
def firstIdxOf (c : Char) : Str → Option Nat
  | [] => none
  | x :: rest => if x = c then some 0 else (firstIdxOf c rest).map (· + 1)

/-- Index of the last occurrence of a character. -/
def lastIdxOf (c : Char) : Str → Option Nat
  | [] => none
  | x :: rest =>
      match lastIdxOf c rest with
      | some k => some (k + 1)
      | none => if x = c then some 0 else none

/-! ### The block-buffer tag search

FindString of the pattern: tag character, colon, whitespace star, opening
brace, dot star, closing brace.  The dot does not match a newline, the
whitespace class does; the greedy dot star therefore runs to the last
closing brace before the next newline.  The leftmost match wins. -/

/-- Attempt the block-buffer tag pattern at the current position, returning
the matched text. -/
def matchBlockTagAt (tagChar : Char) (s : Str) : Option Str :=
  match s with
  | c :: ':' :: r2 =>
      if c = tagChar then
        match r2.dropWhile isWS with
        | '{' :: r4 =>
            let seg := r4.takeWhile (fun x => x ≠ '\n')
            match lastIdxOf '}' seg with
            | some k =>
                some (c :: ':' :: (r2.takeWhile isWS ++ '{' :: seg.take (k + 1)))
            | none => none
        | _ => none
      else none
  | _ => none

/-- FindString of the block-buffer tag pattern: leftmost match. -/
def findBlockTag (tagChar : Char) : Str → Option Str
  | [] => none
  | c :: rest =>
      match matchBlockTagAt tagChar (c :: rest) with
      | some m => some m
      | none => findBlockTag tagChar rest

/-! ### JSON decoding into a category map

Go's json.Unmarshal into a map from string to string slice, restricted to
the shapes that succeed for that target type: an object whose values are
arrays of strings or null, with nothing but whitespace after the closing
brace.  Duplicate keys overwrite (map assignment).  Anything else is an
error, modelled as none. -/

/-- JSON insignificant whitespace: space, tab, newline, carriage return. -/
def skipJsonWS (s : Str) : Str :=
  s.dropWhile (fun c => c = ' ' || c = '\t' || c = '\n' || c = '\r')

/-- Value of a hexadecimal digit. -/
def hexVal (c : Char) : Option Nat :=
  if '0' ≤ c ∧ c ≤ '9' then some (c.toNat - '0'.toNat)
  else if 'a' ≤ c ∧ c ≤ 'f' then some (c.toNat - 'a'.toNat + 10)
  else if 'A' ≤ c ∧ c ≤ 'F' then some (c.toNat - 'A'.toNat + 10)
  else none

/-- Decode a JSON string body after its opening quote: content and the rest
after the closing quote.  Escapes are decoded; raw control characters are
rejected. -/
def parseJsonStringBody : Str → Option (Str × Str)
  | [] => none
  | '"' :: rest => some ([], rest)
  | '\\' :: e :: rest =>
      match e with
      | '"' => (parseJsonStringBody rest).map (fun r => ('"' :: r.1, r.2))
      | '\\' => (parseJsonStringBody rest).map (fun r => ('\\' :: r.1, r.2))
      | '/' => (parseJsonStringBody rest).map (fun r => ('/' :: r.1, r.2))
      | 'b' => (parseJsonStringBody rest).map (fun r => ('\x08' :: r.1, r.2))
      | 'f' => (parseJsonStringBody rest).map (fun r => ('\x0c' :: r.1, r.2))
      | 'n' => (parseJsonStringBody rest).map (fun r => ('\n' :: r.1, r.2))
      | 'r' => (parseJsonStringBody rest).map (fun r => ('\r' :: r.1, r.2))
      | 't' => (parseJsonStringBody rest).map (fun r => ('\t' :: r.1, r.2))
      | 'u' =>
          match rest with
          | a :: b :: c :: d :: rest2 =>
              match hexVal a, hexVal b, hexVal c, hexVal d with
              | some va, some vb, some vc, some vd =>
                  (parseJsonStringBody rest2).map
                    (fun r => (Char.ofNat (((va * 16 + vb) * 16 + vc) * 16 + vd) :: r.1, r.2))
              | _, _, _, _ => none
          | _ => none
      | _ => none
  | c :: rest =>
      if c.toNat < 32 then none
      else (parseJsonStringBody rest).map (fun r => (c :: r.1, r.2))

/-- Decode the elements of a non-empty JSON array of strings, positioned at
the first element; returns the elements and the rest after the closing
bracket.  Fuel bounds the number of elements. -/
def parseArrayElems : Nat → Str → Option (List Str × Str)
  | 0, _ => none
  | fuel + 1, s =>
      match s with
      | '"' :: rest =>
          match parseJsonStringBody rest with
          | none => none
          | some (str, rest2) =>
              match skipJsonWS rest2 with
              | ',' :: r2 =>
                  match parseArrayElems fuel (skipJsonWS r2) with
                  | some (strs, r3) => some (str :: strs, r3)
                  | none => none
              | ']' :: r2 => some ([str], r2)
              | _ => none
      | _ => none

/-- Decode a JSON value of the target element type: an array of strings or
null (Go leaves the slice nil for null, an empty list here). -/
def parseJsonValue (s : Str) : Option (List Str × Str) :=
  match s with
  | '[' :: rest =>
      match skipJsonWS rest with
      | ']' :: r2 => some ([], r2)
      | r => parseArrayElems (r.length + 1) r
  | 'n' :: 'u' :: 'l' :: 'l' :: rest => some ([], rest)
  | _ => none

/-- Map assignment: overwrite the binding if the key exists, append it
otherwise. -/
def jsonSetKey (m : CatMap) (k : Str) (v : List Str) : CatMap :=
  if (lookupCat m k).isSome then setCat m k v else m ++ [(k, v)]

/-- Decode the members of a non-empty JSON object, positioned at the first
key; returns the accumulated map and the rest after the closing brace. -/
def parseObjMembers : Nat → Str → CatMap → Option (CatMap × Str)
  | 0, _, _ => none
  | fuel + 1, s, acc =>
      match s with
      | '"' :: rest =>
          match parseJsonStringBody rest with
          | none => none
          | some (key, r1) =>
              match skipJsonWS r1 with
              | ':' :: r2 =>
                  match parseJsonValue (skipJsonWS r2) with
                  | none => none
                  | some (v, r3) =>
                      let acc2 := jsonSetKey acc key v
                      match skipJsonWS r3 with
                      | ',' :: r4 => parseObjMembers fuel (skipJsonWS r4) acc2
                      | '}' :: r4 => some (acc2, r4)
                      | _ => none
              | _ => none
      | _ => none

/-- json.Unmarshal of a byte slice into a map from string to string slice:
a single object with only whitespace allowed after it. -/
def jsonUnmarshalCatMap (s : Str) : Option CatMap :=
  match skipJsonWS s with
  | '{' :: rest =>
      match skipJsonWS rest with
      | '}' :: r2 => if skipJsonWS r2 = [] then some [] else none
      | r =>
          match parseObjMembers (r.length + 1) r [] with
          | some (m, r2) => if skipJsonWS r2 = [] then some m else none
          | none => none
  | _ => none

/-- parseTagJSON from cmd/extract.go: slice the line from the first opening
brace to the last closing brace and unmarshal it. -/
def parseTagJSON (line : Str) : Option CatMap :=
  match firstIdxOf '{' line, lastIdxOf '}' line with
  | some startIdx, some endIdx =>
      if endIdx < startIdx then none
      else jsonUnmarshalCatMap ((line.drop startIdx).take (endIdx - startIdx + 1))
  | _, _ => none

/-! ### The comment parser state machine -/

/-- A language plugin's comment style (plugins.CommentStyle): the single-line
comment token and the block-comment start and end tokens. -/
structure CommentStyle where
  single : Str
  multiStart : Str
  multiEnd : Str
deriving DecidableEq

/-- The Python plugin's comment style: hash, triple-quote, triple-quote. -/
def pythonStyle : CommentStyle :=
  ⟨"#".data, ['"', '"', '"'], ['"', '"', '"']⟩

/-- The TypeScript plugin's comment style: double slash, slash-star,
star-slash. -/
def typescriptStyle : CommentStyle :=
  ⟨"//".data, "/*".data, "*/".data⟩

/-- The mutable fields of commentParser: the multiline flag, the
accumulation buffer, and the found-start-tag marker. -/
structure ParserState where
  inMultiline : Bool
  buffer : Str
  foundStartTag : Bool
deriving DecidableEq

/-- A fresh commentParser. -/
def initParser : ParserState := ⟨false, [], false⟩

/-- The result of parseLine: the updated parser state and the three return
values isStart, isEnd, jsonData. -/
structure LineResult where
  state : ParserState
  isStart : Bool
  isEnd : Bool
  data : Option CatMap
deriving DecidableEq

/-- The close-tag half of the block-buffer resolution: search the buffer for
the close pattern and parse its JSON; on any failure the line is ordinary. -/
def blockEndCheck (p : ParserState) (buf : Str) : LineResult :=
  match findBlockTag '<' buf with
  | some m =>
      match parseTagJSON m with
      | some d => ⟨p, false, true, some d⟩
      | none => ⟨p, false, false, none⟩
  | none => ⟨p, false, false, none⟩

/-- The block-comment half of parseLine: outside a block, a line containing
the block-start token enters accumulation (resetting the buffer); inside a
block, the line joins the buffer, and the block-end token resolves the
buffer, looking for an open tag first, then a close tag. -/
def parseLineBlock (cs : CommentStyle) (p : ParserState) (line : Str) : LineResult :=
  if p.inMultiline = false then
    if containsSub cs.multiStart line then
      ⟨⟨true, line ++ ['\n'], p.foundStartTag⟩, false, false, none⟩
    else ⟨p, false, false, none⟩
  else
    let buf := p.buffer ++ line ++ ['\n']
    if containsSub cs.multiEnd line then
      match findBlockTag '>' buf with
      | some m =>
          match parseTagJSON m with
          | some d => ⟨⟨false, buf, true⟩, true, false, some d⟩
          | none => blockEndCheck ⟨false, buf, p.foundStartTag⟩ buf
      | none => blockEndCheck ⟨false, buf, p.foundStartTag⟩ buf
    else ⟨⟨true, buf, p.foundStartTag⟩, false, false, none⟩

/-- The close-tag check of parseLine: if the single-line close pattern
matches and the line's JSON parses, the line closes a snippet; otherwise
fall through to the block-comment logic. -/
def parseLineEnd (cs : CommentStyle) (p : ParserState) (line : Str) : LineResult :=
  if containsTagFrom cs.single '<' line then
    match parseTagJSON line with
    | some d => ⟨p, false, true, some d⟩
    | none => parseLineBlock cs p line
  else parseLineBlock cs p line

/-- commentParser.parseLine from cmd/extract.go: single-line open tag, then
single-line close tag, then block-comment handling. -/
def parseLine (cs : CommentStyle) (p : ParserState) (line : Str) : LineResult :=
  if containsTagFrom cs.single '>' line then
    match parseTagJSON line with
    | some d => ⟨p, true, false, some d⟩
    | none => parseLineEnd cs p line
  else parseLineEnd cs p line

/-! ### The per-file scanner -/

/-- An emitted snippet (the per-file fields of the snippet struct): start
and end line numbers, the opening tag's categories, and the body lines. -/
structure Snippet where
  startLine : Nat
  endLine : Nat
  categories : CatMap
  content : List Str
deriving DecidableEq

/-- The in-progress snippet record (snippetData). -/
structure SnippetData where
  categories : CatMap
  startLine : Nat
  lines : List Str
deriving DecidableEq

/-- The scanner's loop state: the comment parser, the active snippet if any,
and the emitted results so far. -/
structure ScanState where
  parser : ParserState
  active : Option SnippetData
  results : List Snippet
deriving DecidableEq

/-- One iteration of the scan loop of extractSnippets: parse the line; an
open tag starts a fresh active snippet (discarding any previous one); a
close tag with an active snippet emits it if it matches the query; an
ordinary line joins the active snippet's body unless the parser is in a
multiline block after processing the line. -/
def scanStep (cs : CommentStyle) (catMap : CatMap) (st : ScanState)
    (lineNum : Nat) (line : Str) : ScanState :=
  let r := parseLine cs st.parser line
  if r.isStart then
    ⟨r.state, some ⟨r.data.getD [], lineNum, []⟩, st.results⟩
  else
    match st.active with
    | some a =>
        if r.isEnd then
          let snip : Snippet := ⟨a.startLine, lineNum, a.categories, a.lines⟩
          ⟨r.state, none,
            st.results ++ if snippetMatches snip.categories catMap then [snip] else []⟩
        else if r.state.inMultiline then ⟨r.state, some a, st.results⟩
        else ⟨r.state, some ⟨a.categories, a.startLine, a.lines ++ [line]⟩, st.results⟩
    | none => ⟨r.state, none, st.results⟩

/-- Scan the remaining lines, numbering them from the given 1-based line
number. -/
def scanLines (cs : CommentStyle) (catMap : CatMap) :
    List Str → Nat → ScanState → ScanState
  | [], _, st => st
  | l :: ls, n, st => scanLines cs catMap ls (n + 1) (scanStep cs catMap st n l)

/-- The per-file body of extractSnippets from cmd/extract.go: scan a file's
lines with a fresh parser and return the emitted snippets that match the
query. -/
def extractSnippets (cs : CommentStyle) (lines : List Str) (catMap : CatMap) :
    List Snippet :=
  (scanLines cs catMap lines 1 ⟨initParser, none, []⟩).results

/-! ### Concrete fixtures

Tag lines used by the concrete counterexamples and witnesses, built from
character lists. -/

/-- The double-quote character. -/
def quoteC : Char := '"'

/-- The opening brace character. -/
def braceL : Char := '{'

/-- The closing brace character. -/
def braceR : Char := '}'

/-- The JSON text mapping category a to the single domain b. -/
def jsonAB : Str :=
  [braceL, quoteC] ++ "a".data ++ [quoteC] ++ ": [".data ++
    [quoteC] ++ "b".data ++ [quoteC, ']', braceR]

/-- The JSON text mapping category c to the single domain d. -/
def jsonCD : Str :=
  [braceL, quoteC] ++ "c".data ++ [quoteC] ++ ": [".data ++
    [quoteC] ++ "d".data ++ [quoteC, ']', braceR]

/-- A well-formed TypeScript single-line open tag for category a, domain b. -/
def openAB : Str := "// >: ".data ++ jsonAB

/-- A well-formed TypeScript single-line open tag for category c, domain d. -/
def openCD : Str := "// >: ".data ++ jsonCD

/-- A well-formed TypeScript single-line close tag with an empty object. -/
def closeE : Str := "// <: ".data ++ [braceL, braceR]

/-- The category map binding a to the single domain b. -/
def abMap : CatMap := [("a".data, ["b".data])]

/-- An ordinary line: neither single-line tag pattern matches and neither
block-comment token occurs. -/
def ordinaryLine (cs : CommentStyle) (l : Str) : Prop :=
  containsTagFrom cs.single '>' l = false ∧
    containsTagFrom cs.single '<' l = false ∧
    containsSub cs.multiStart l = false ∧
    containsSub cs.multiEnd l = false

instance (cs : CommentStyle) (l : Str) : Decidable (ordinaryLine cs l) := by
  unfold ordinaryLine; infer_instance

/-- The text a list of lines contributes to the accumulation buffer: each
line followed by a newline. -/
def joinLines : List Str → Str
  | [] => []
  | l :: ls => l ++ '\n' :: joinLines ls

/-! ### Characterization of the matcher -/

/-- One snippet category satisfies the query iff the category is a query key
and the requested domain set is empty or intersects the snippet's. -/
theorem categorySatisfies_iff (catMap : CatMap) (c : Str) (ds : List Str) :
    categorySatisfies catMap (c, ds) = true ↔
      ∃ rds, lookupCat catMap c = some rds ∧ (rds = [] ∨ ∃ d ∈ ds, d ∈ rds) := by
  cases h : lookupCat catMap c with
  | none => simp [categorySatisfies, h]
  | some rds =>
      simp only [categorySatisfies, h, Bool.or_eq_true, List.isEmpty_iff,
        List.any_eq_true, decide_eq_true_eq, Option.some.injEq]
      constructor
      · rintro (he | ⟨sd, hsd, rd, hrd, rfl⟩)
        · exact ⟨rds, rfl, Or.inl he⟩
        · exact ⟨rds, rfl, Or.inr ⟨sd, hsd, hrd⟩⟩
      · rintro ⟨rds', hrds', (he | ⟨d, hd, hdr⟩)⟩
        · exact Or.inl (hrds' ▸ he)
        · exact Or.inr ⟨d, hd, d, hrds' ▸ hdr, rfl⟩

/-- The full characterization of snippetMatches: an empty query matches
everything; a non-empty query matches iff some snippet category entry
satisfies it. -/
theorem snippetMatches_characterization (sCats catMap : CatMap) :
    snippetMatches sCats catMap = true ↔
      (catMap = [] ∨
        ∃ c ds, (c, ds) ∈ sCats ∧
          ∃ rds, lookupCat catMap c = some rds ∧ (rds = [] ∨ ∃ d ∈ ds, d ∈ rds)) := by
  cases catMap with
  | nil => simp [snippetMatches]
  | cons p rest =>
      simp only [snippetMatches, List.length_cons, Nat.succ_ne_zero, if_false,
        List.any_eq_true, reduceCtorEq, false_or]
      constructor
      · rintro ⟨⟨c, ds⟩, hmem, hsat⟩
        exact ⟨c, ds, hmem, (categorySatisfies_iff _ c ds).mp hsat⟩
      · rintro ⟨c, ds, hmem, hsat⟩
        exact ⟨(c, ds), hmem, (categorySatisfies_iff _ c ds).mpr hsat⟩

/-- Characters absent from a list do not occur per List.contains. -/
theorem contains_eq_false_of_not_mem {c : Char} {s : Str} (h : c ∉ s) :
    s.contains c = false := by
  induction s with
  | nil => rfl
  | cons x rest ih =>
      simp only [List.mem_cons, not_or] at h
      simp only [List.contains_cons, Bool.or_eq_false_iff]
      exact ⟨beq_eq_false_iff_ne.mpr h.1, ih h.2⟩

/-- A string without the separator splits into itself alone. -/
theorem splitOnChar_no_sep (sep : Char) (s : Str) (h : sep ∉ s) :
    splitOnChar sep s = [s] := by
  induction s with
  | nil => rfl
  | cons c rest ih =>
      simp only [List.mem_cons, not_or] at h
      have hne : c ≠ sep := fun he => h.1 he.symm
      simp [splitOnChar, hne, ih h.2]

/-- C1: for every snippet category map and every query map, the matcher
returns true exactly when the query is empty, or some category present in
the snippet is a query key whose requested domain set is empty or meets the
snippet's domain set for that category (an OR across categories). -/
theorem C1_snippetMatches_spec (sCats catMap : CatMap) :
    snippetMatches sCats catMap = true ↔
      (catMap = [] ∨
        ∃ c ds, (c, ds) ∈ sCats ∧
          ∃ rds, lookupCat catMap c = some rds ∧ (rds = [] ∨ ∃ d ∈ ds, d ∈ rds)) :=
  snippetMatches_characterization sCats catMap

/-- C8: the query string with a domain prefix on the first term and a bare
second term parses with the domain carried forward onto the bare term. -/
theorem C8_domain_carry_forward :
    parseCategoryArg "messages:foundation, tests".data =
      [("foundation".data, ["messages".data]), ("tests".data, ["messages".data])] := by
  decide

/-- C3 counterexample: parsing the bare query string foundation yields the
singleton domain set holding the empty string, and a snippet whose
foundation domain list is the non-empty list [messages] does not match it. -/
theorem C3_counterexample :
    parseCategoryArg "foundation".data = [("foundation".data, [[]])] ∧
      snippetMatches [("foundation".data, ["messages".data])]
        (parseCategoryArg "foundation".data) = false := by
  decide

/-- C3 amended: parsing a bare query term yields the singleton domain set
holding the empty string, not an empty wildcard set; a snippet with that
category matches exactly when its domain list contains the empty string. -/
theorem C3_amended (c : Str) (ds : List Str)
    (hne : c ≠ []) (hcomma : ',' ∉ c) (hcolon : ':' ∉ c)
    (htrim : trimSpace c = c) :
    parseCategoryArg c = [(c, [[]])] ∧
      (snippetMatches [(c, ds)] (parseCategoryArg c) = true ↔ [] ∈ ds) := by
  have hq : parseCategoryArg c = [(c, [[]])] := by
    unfold parseCategoryArg
    rw [if_neg hne, splitOnChar_no_sep ',' c hcomma]
    unfold parseCategoryLoop
    simp only [htrim, contains_eq_false_of_not_mem hcolon, Bool.false_eq_true,
      if_false]
    simp [parseCategoryLoop, addToCategoryMap, lookupCat, setCat]
  refine ⟨hq, ?_⟩
  rw [hq, snippetMatches_characterization]
  constructor
  · rintro (habs | ⟨c', ds', hmem, rds, hrds, hcase⟩)
    · exact absurd habs (by simp)
    · simp only [List.mem_singleton, Prod.mk.injEq] at hmem
      rw [hmem.1] at hrds
      have hl : lookupCat [(c, [[]])] c = some [[]] := by simp [lookupCat]
      rw [hl, Option.some.injEq] at hrds
      subst hrds
      rcases hcase with habs | ⟨d, hd, hdr⟩
      · exact absurd habs (by simp)
      · simp only [List.mem_singleton] at hdr
        rw [hmem.2] at hd
        exact hdr ▸ hd
  · intro hmem
    refine Or.inr ⟨c, ds, by simp, [[]], by simp [lookupCat], Or.inr ⟨[], hmem, by simp⟩⟩

/-- C3 amended witness: the bare term foundation against a snippet whose
foundation domains are the empty string and x. -/
theorem C3_amended_witness :
    parseCategoryArg "foundation".data = [("foundation".data, [[]])] ∧
      (snippetMatches [("foundation".data, [[], "x".data])]
          (parseCategoryArg "foundation".data) = true ↔
        [] ∈ [[], "x".data]) :=
  C3_amended "foundation".data [[], "x".data] (by decide) (by decide) (by decide)
    (by decide)

/-- C10: with a non-empty query in which no shared category is requested
with an empty domain set, a snippet category carrying an empty domain list
never produces a match; the matcher returns true exactly when some category
with a non-empty domain list meets its requested domains. -/
theorem C10_empty_snippet_domains (sCats catMap : CatMap) (c₀ : Str)
    (hne : catMap ≠ [])
    (_hc₀ : (c₀, ([] : List Str)) ∈ sCats)
    (_hshared : (lookupCat catMap c₀).isSome = true)
    (hall : ∀ p ∈ sCats, ¬ lookupCat catMap p.1 = some []) :
    snippetMatches sCats catMap = true ↔
      ∃ p ∈ sCats, p.2 ≠ [] ∧
        ∃ rds, lookupCat catMap p.1 = some rds ∧ ∃ d ∈ p.2, d ∈ rds := by
  rw [snippetMatches_characterization]
  simp only [hne, false_or]
  constructor
  · rintro ⟨c, ds, hmem, rds, hrds, hcase⟩
    rcases hcase with rfl | ⟨d, hd, hdr⟩
    · exact absurd hrds (hall (c, ds) hmem)
    · exact ⟨(c, ds), hmem, List.ne_nil_of_mem hd, rds, hrds, d, hd, hdr⟩
  · rintro ⟨⟨c, ds⟩, hmem, _, rds, hrds, d, hd, hdr⟩
    exact ⟨c, ds, hmem, rds, hrds, Or.inr ⟨d, hd, hdr⟩⟩

/-! ### Behaviour of parseLine on classified lines -/

/-- A line matching the single-line open pattern with parsing JSON opens a
snippet and leaves the parser state untouched. -/
theorem parseLine_open (cs : CommentStyle) (p : ParserState) (l : Str)
    (d : CatMap) (h1 : containsTagFrom cs.single '>' l = true)
    (h2 : parseTagJSON l = some d) :
    parseLine cs p l = ⟨p, true, false, some d⟩ := by
  simp [parseLine, h1, h2]

/-- A line matching the single-line close pattern, but not the open pattern,
with parsing JSON closes a snippet and leaves the parser state untouched. -/
theorem parseLine_close (cs : CommentStyle) (p : ParserState) (l : Str)
    (d : CatMap) (h0 : containsTagFrom cs.single '>' l = false)
    (h1 : containsTagFrom cs.single '<' l = true)
    (h2 : parseTagJSON l = some d) :
    parseLine cs p l = ⟨p, false, true, some d⟩ := by
  simp [parseLine, parseLineEnd, h0, h1, h2]

/-- Outside a block comment, an ordinary line does nothing. -/
theorem parseLine_ordinary (cs : CommentStyle) (p : ParserState) (l : Str)
    (h : ordinaryLine cs l) (hp : p.inMultiline = false) :
    parseLine cs p l = ⟨p, false, false, none⟩ := by
  obtain ⟨h1, h2, h3, _⟩ := h
  simp [parseLine, parseLineEnd, parseLineBlock, h1, h2, h3, hp]

/-- Outside a block comment, a line whose JSON fails to parse and which
holds no block-start token does nothing, whatever tag patterns it matches. -/
theorem parseLine_badJson (cs : CommentStyle) (p : ParserState) (l : Str)
    (hj : parseTagJSON l = none) (hp : p.inMultiline = false)
    (hms : containsSub cs.multiStart l = false) :
    parseLine cs p l = ⟨p, false, false, none⟩ := by
  cases hs : containsTagFrom cs.single '>' l <;>
    cases he : containsTagFrom cs.single '<' l <;>
      simp [parseLine, parseLineEnd, parseLineBlock, hs, he, hj, hp, hms]

/-- Outside a block comment, a line carrying the block-start token but no
single-line tag enters accumulation with the buffer reset to that line. -/
theorem parseLine_blockEnter (cs : CommentStyle) (p : ParserState) (l : Str)
    (h1 : containsTagFrom cs.single '>' l = false)
    (h2 : containsTagFrom cs.single '<' l = false)
    (hp : p.inMultiline = false)
    (hms : containsSub cs.multiStart l = true) :
    parseLine cs p l = ⟨⟨true, l ++ ['\n'], p.foundStartTag⟩, false, false, none⟩ := by
  simp [parseLine, parseLineEnd, parseLineBlock, h1, h2, hp, hms]

/-- Inside a block comment, a line with no single-line tag and no block-end
token only extends the buffer. -/
theorem parseLine_blockInterior (cs : CommentStyle) (p : ParserState) (l : Str)
    (h1 : containsTagFrom cs.single '>' l = false)
    (h2 : containsTagFrom cs.single '<' l = false)
    (hp : p.inMultiline = true)
    (hme : containsSub cs.multiEnd l = false) :
    parseLine cs p l =
      ⟨⟨true, p.buffer ++ l ++ ['\n'], p.foundStartTag⟩, false, false, none⟩ := by
  simp [parseLine, parseLineEnd, parseLineBlock, h1, h2, hp, hme]

/-- Inside a block comment, a line with no single-line tag carrying the
block-end token resolves the buffer; if the buffer yields neither tag
pattern, the line is ordinary and the parser merely leaves the block. -/
theorem parseLine_blockResolveNone (cs : CommentStyle) (p : ParserState) (l : Str)
    (h1 : containsTagFrom cs.single '>' l = false)
    (h2 : containsTagFrom cs.single '<' l = false)
    (hp : p.inMultiline = true)
    (hme : containsSub cs.multiEnd l = true)
    (hfs : findBlockTag '>' (p.buffer ++ l ++ ['\n']) = none)
    (hfe : findBlockTag '<' (p.buffer ++ l ++ ['\n']) = none) :
    parseLine cs p l =
      ⟨⟨false, p.buffer ++ l ++ ['\n'], p.foundStartTag⟩, false, false, none⟩ := by
  rw [List.append_assoc] at hfs hfe
  simp [parseLine, parseLineEnd, parseLineBlock, blockEndCheck, h1, h2, hp, hme,
    hfs, hfe]

/-- Inside a block comment, a block-end line whose buffer yields an open tag
with parsing JSON opens a snippet on this line. -/
theorem parseLine_blockResolveOpen (cs : CommentStyle) (p : ParserState) (l m : Str)
    (d : CatMap)
    (h1 : containsTagFrom cs.single '>' l = false)
    (h2 : containsTagFrom cs.single '<' l = false)
    (hp : p.inMultiline = true)
    (hme : containsSub cs.multiEnd l = true)
    (hfs : findBlockTag '>' (p.buffer ++ l ++ ['\n']) = some m)
    (hd : parseTagJSON m = some d) :
    parseLine cs p l =
      ⟨⟨false, p.buffer ++ l ++ ['\n'], true⟩, true, false, some d⟩ := by
  rw [List.append_assoc] at hfs
  simp [parseLine, parseLineEnd, parseLineBlock, h1, h2, hp, hme, hfs, hd]

/-- Inside a block comment, a block-end line whose buffer yields no open tag
but a close tag with parsing JSON closes a snippet on this line. -/
theorem parseLine_blockResolveClose (cs : CommentStyle) (p : ParserState) (l m : Str)
    (d : CatMap)
    (h1 : containsTagFrom cs.single '>' l = false)
    (h2 : containsTagFrom cs.single '<' l = false)
    (hp : p.inMultiline = true)
    (hme : containsSub cs.multiEnd l = true)
    (hfs : findBlockTag '>' (p.buffer ++ l ++ ['\n']) = none)
    (hfe : findBlockTag '<' (p.buffer ++ l ++ ['\n']) = some m)
    (hd : parseTagJSON m = some d) :
    parseLine cs p l =
      ⟨⟨false, p.buffer ++ l ++ ['\n'], p.foundStartTag⟩, false, true, some d⟩ := by
  rw [List.append_assoc] at hfs hfe
  simp [parseLine, parseLineEnd, parseLineBlock, blockEndCheck, h1, h2, hp, hme,
    hfs, hfe, hd]

/-! ### Behaviour of one scan step -/

/-- A step whose line opens a snippet replaces the active snippet. -/
theorem scanStep_open (cs : CommentStyle) (q : CatMap) (st : ScanState)
    (n : Nat) (l : Str) (p' : ParserState) (d : CatMap)
    (h : parseLine cs st.parser l = ⟨p', true, false, some d⟩) :
    scanStep cs q st n l = ⟨p', some ⟨d, n, []⟩, st.results⟩ := by
  simp [scanStep, h]

/-- A step whose line closes a snippet while one is active emits it (when it
matches the query) with the current line number as its end line. -/
theorem scanStep_close (cs : CommentStyle) (q : CatMap) (st : ScanState)
    (n : Nat) (l : Str) (p' : ParserState) (d : CatMap) (a : SnippetData)
    (h : parseLine cs st.parser l = ⟨p', false, true, some d⟩)
    (ha : st.active = some a) :
    scanStep cs q st n l =
      ⟨p', none,
        st.results ++
          if snippetMatches a.categories q then
            [⟨a.startLine, n, a.categories, a.lines⟩] else []⟩ := by
  simp [scanStep, h, ha]

/-- A step whose line is ordinary, with an active snippet and the parser out
of a block afterwards, appends the line to the body. -/
theorem scanStep_append (cs : CommentStyle) (q : CatMap) (st : ScanState)
    (n : Nat) (l : Str) (p' : ParserState) (a : SnippetData)
    (h : parseLine cs st.parser l = ⟨p', false, false, none⟩)
    (hp' : p'.inMultiline = false)
    (ha : st.active = some a) :
    scanStep cs q st n l =
      ⟨p', some ⟨a.categories, a.startLine, a.lines ++ [l]⟩, st.results⟩ := by
  simp [scanStep, h, ha, hp']

/-- A step whose line is ordinary, with an active snippet and the parser in
a block afterwards, changes only the parser state. -/
theorem scanStep_skip (cs : CommentStyle) (q : CatMap) (st : ScanState)
    (n : Nat) (l : Str) (p' : ParserState) (a : SnippetData)
    (h : parseLine cs st.parser l = ⟨p', false, false, none⟩)
    (hp' : p'.inMultiline = true)
    (ha : st.active = some a) :
    scanStep cs q st n l = ⟨p', some a, st.results⟩ := by
  simp [scanStep, h, ha, hp']

/-! ### Scanning runs of classified lines -/

/-- Unfolding of scanLines on a first line. -/
theorem scanLines_cons (cs : CommentStyle) (q : CatMap) (l : Str) (ls : List Str)
    (n : Nat) (st : ScanState) :
    scanLines cs q (l :: ls) n st = scanLines cs q ls (n + 1) (scanStep cs q st n l) :=
  rfl

/-- Unfolding of scanLines on no lines. -/
theorem scanLines_nil (cs : CommentStyle) (q : CatMap) (n : Nat) (st : ScanState) :
    scanLines cs q [] n st = st :=
  rfl

/-- An empty query matches every snippet. -/
theorem snippetMatches_nil (c : CatMap) : snippetMatches c [] = true :=
  rfl

/-- Scanning a run of ordinary lines with an active snippet and the parser
out of a block appends them all to the body, in order. -/
theorem scanLines_append_bodies (cs : CommentStyle) (q : CatMap)
    (bodies : List Str) (h : ∀ b ∈ bodies, ordinaryLine cs b) :
    ∀ (rest : List Str) (n : Nat) (p : ParserState) (a : SnippetData)
      (res : List Snippet), p.inMultiline = false →
      scanLines cs q (bodies ++ rest) n ⟨p, some a, res⟩ =
        scanLines cs q rest (n + bodies.length)
          ⟨p, some ⟨a.categories, a.startLine, a.lines ++ bodies⟩, res⟩ := by
  induction bodies with
  | nil => intro rest n p a res _; simp
  | cons b bs ih =>
      intro rest n p a res hp
      have hb := h b (by simp)
      have hbs : ∀ x ∈ bs, ordinaryLine cs x := fun x hx => h x (by simp [hx])
      have hstep := scanStep_append cs q ⟨p, some a, res⟩ n b p a
        (parseLine_ordinary cs p b hb hp) hp rfl
      calc scanLines cs q ((b :: bs) ++ rest) n ⟨p, some a, res⟩
          = scanLines cs q (bs ++ rest) (n + 1) (scanStep cs q ⟨p, some a, res⟩ n b) := rfl
        _ = scanLines cs q (bs ++ rest) (n + 1)
              ⟨p, some ⟨a.categories, a.startLine, a.lines ++ [b]⟩, res⟩ := by rw [hstep]
        _ = scanLines cs q rest (n + 1 + bs.length)
              ⟨p, some ⟨a.categories, a.startLine, (a.lines ++ [b]) ++ bs⟩, res⟩ :=
            ih hbs rest (n + 1) p ⟨a.categories, a.startLine, a.lines ++ [b]⟩ res hp
        _ = scanLines cs q rest (n + (b :: bs).length)
              ⟨p, some ⟨a.categories, a.startLine, a.lines ++ (b :: bs)⟩, res⟩ := by
            congr 1
            · simp
              omega
            · simp

/-- C4: a file consisting of one well-formed open tag, N ordinary body
lines and one well-formed close tag yields, against the empty query,
exactly one snippet spanning lines 1 to N+2 whose content is those N lines
verbatim and in order; its line arithmetic satisfies
endLine - startLine - 1 = N. -/
theorem C4_roundtrip (cs : CommentStyle) (A B : CatMap)
    (openLine closeLine : Str) (bodies : List Str)
    (hO1 : containsTagFrom cs.single '>' openLine = true)
    (hO2 : parseTagJSON openLine = some A)
    (hB : ∀ b ∈ bodies, ordinaryLine cs b)
    (hC0 : containsTagFrom cs.single '>' closeLine = false)
    (hC1 : containsTagFrom cs.single '<' closeLine = true)
    (hC2 : parseTagJSON closeLine = some B) :
    extractSnippets cs (openLine :: (bodies ++ [closeLine])) [] =
      [⟨1, bodies.length + 2, A, bodies⟩] ∧
      (bodies.length + 2) - 1 - 1 = bodies.length := by
  refine ⟨?_, by omega⟩
  have hstep1 := scanStep_open cs [] ⟨initParser, none, []⟩ 1 openLine initParser A
    (parseLine_open cs initParser openLine A hO1 hO2)
  have hclose := scanStep_close cs [] ⟨initParser, some ⟨A, 1, bodies⟩, []⟩
    (1 + 1 + bodies.length) closeLine initParser B ⟨A, 1, bodies⟩
    (parseLine_close cs initParser closeLine B hC0 hC1 hC2) rfl
  calc extractSnippets cs (openLine :: (bodies ++ [closeLine])) []
      = (scanLines cs [] (bodies ++ [closeLine]) (1 + 1)
          (scanStep cs [] ⟨initParser, none, []⟩ 1 openLine)).results := rfl
    _ = (scanLines cs [] (bodies ++ [closeLine]) (1 + 1)
          ⟨initParser, some ⟨A, 1, []⟩, []⟩).results := by rw [hstep1]
    _ = (scanLines cs [] [closeLine] (1 + 1 + bodies.length)
          ⟨initParser, some ⟨A, 1, [] ++ bodies⟩, []⟩).results := by
        rw [scanLines_append_bodies cs [] bodies hB [closeLine] (1 + 1) initParser
          ⟨A, 1, []⟩ [] rfl]
    _ = (scanStep cs [] ⟨initParser, some ⟨A, 1, bodies⟩, []⟩
          (1 + 1 + bodies.length) closeLine).results := by simp [scanLines]
    _ = [⟨1, bodies.length + 2, A, bodies⟩] := by
        rw [hclose]
        have h2 : 1 + 1 + bodies.length = bodies.length + 2 := by omega
        simp [snippetMatches_nil, h2]

/-- C4 witness: one open tag, the single body line body1, one close tag. -/
theorem C4_witness :
    extractSnippets typescriptStyle [openAB, "body1".data, closeE] [] =
      [⟨1, 3, abMap, ["body1".data]⟩] := by
  have h := C4_roundtrip typescriptStyle abMap [] openAB closeE ["body1".data]
    (by decide) (by decide) (by decide) (by decide) (by decide) (by decide)
  simpa using h.1

/-- C5: scanning open(A), line1, open(B), line2, close against the empty
query emits exactly one snippet, with metadata B, lines 3 to 5 and content
line2 only; the first open tag's snippet is discarded, never emitted. -/
theorem C5_discard_unterminated (cs : CommentStyle) (A B Cc : CatMap)
    (oA l1 oB l2 cl : Str)
    (hA1 : containsTagFrom cs.single '>' oA = true)
    (hA2 : parseTagJSON oA = some A)
    (h1 : ordinaryLine cs l1)
    (hB1 : containsTagFrom cs.single '>' oB = true)
    (hB2 : parseTagJSON oB = some B)
    (h2 : ordinaryLine cs l2)
    (hC0 : containsTagFrom cs.single '>' cl = false)
    (hC1 : containsTagFrom cs.single '<' cl = true)
    (hC2 : parseTagJSON cl = some Cc) :
    extractSnippets cs [oA, l1, oB, l2, cl] [] = [⟨3, 5, B, [l2]⟩] := by
  have e1 := scanStep_open cs [] ⟨initParser, none, []⟩ 1 oA initParser A
    (parseLine_open cs initParser oA A hA1 hA2)
  have e2 := scanStep_append cs [] ⟨initParser, some ⟨A, 1, []⟩, []⟩ (1 + 1) l1
    initParser ⟨A, 1, []⟩ (parseLine_ordinary cs initParser l1 h1 rfl) rfl rfl
  have e3 := scanStep_open cs [] ⟨initParser, some ⟨A, 1, [] ++ [l1]⟩, []⟩
    (1 + 1 + 1) oB initParser B (parseLine_open cs initParser oB B hB1 hB2)
  have e4 := scanStep_append cs [] ⟨initParser, some ⟨B, 1 + 1 + 1, []⟩, []⟩
    (1 + 1 + 1 + 1) l2 initParser ⟨B, 1 + 1 + 1, []⟩
    (parseLine_ordinary cs initParser l2 h2 rfl) rfl rfl
  have e5 := scanStep_close cs []
    ⟨initParser, some ⟨B, 1 + 1 + 1, [] ++ [l2]⟩, []⟩ (1 + 1 + 1 + 1 + 1) cl
    initParser Cc ⟨B, 1 + 1 + 1, [] ++ [l2]⟩
    (parseLine_close cs initParser cl Cc hC0 hC1 hC2) rfl
  show (scanLines cs [] [oA, l1, oB, l2, cl] 1 ⟨initParser, none, []⟩).results = _
  rw [scanLines_cons, e1, scanLines_cons, e2, scanLines_cons, e3, scanLines_cons,
    e4, scanLines_cons, e5, scanLines_nil]
  simp [snippetMatches_nil]

/-- C5 witness: open tag for a, the line l1, open tag for c, the line l2,
close tag. -/
theorem C5_witness :
    extractSnippets typescriptStyle [openAB, "l1".data, openCD, "l2".data, closeE] [] =
      [⟨3, 5, [("c".data, ["d".data])], ["l2".data]⟩] :=
  C5_discard_unterminated typescriptStyle abMap [("c".data, ["d".data])] []
    openAB "l1".data openCD "l2".data closeE
    (by decide) (by decide) (by decide) (by decide) (by decide) (by decide)
    (by decide) (by decide) (by decide)

/-- C2 counterexample: with a snippet opened by a well-formed open tag, a
later line matching the single-line close-tag pattern whose embedded JSON
fails to parse does not close the snippet: the scan of the two-line file
emits nothing at all. -/
theorem C2_counterexample :
    containsTagFrom pythonStyle.single '>' ("# >: ".data ++ jsonAB) = true ∧
      parseTagJSON ("# >: ".data ++ jsonAB) = some abMap ∧
      containsTagFrom pythonStyle.single '<' "# <: {oops}".data = true ∧
      parseTagJSON "# <: {oops}".data = none ∧
      extractSnippets pythonStyle
        ["# >: ".data ++ jsonAB, "# <: {oops}".data] [] = [] := by
  decide

/-- C2 amended: a line matching the single-line close-tag pattern whose
embedded JSON fails to parse is ignored as a tag: the active snippet stays
open and, outside block accumulation, the line is appended to its body. -/
theorem C2_amended (cs : CommentStyle) (q : CatMap) (st : ScanState) (n : Nat)
    (l : Str) (a : SnippetData)
    (_hclose : containsTagFrom cs.single '<' l = true)
    (hj : parseTagJSON l = none)
    (hp : st.parser.inMultiline = false)
    (hms : containsSub cs.multiStart l = false)
    (ha : st.active = some a) :
    scanStep cs q st n l =
      ⟨st.parser, some ⟨a.categories, a.startLine, a.lines ++ [l]⟩, st.results⟩ :=
  scanStep_append cs q st n l st.parser a
    (parseLine_badJson cs st.parser l hj hp hms) hp ha

/-- C2 amended witness: the malformed close line joins the body of the open
snippet instead of closing it. -/
theorem C2_amended_witness :
    scanStep pythonStyle [] ⟨initParser, some ⟨abMap, 1, []⟩, []⟩ 2
        "# <: {oops}".data =
      ⟨initParser, some ⟨abMap, 1, [] ++ ["# <: {oops}".data]⟩, []⟩ :=
  C2_amended pythonStyle [] ⟨initParser, some ⟨abMap, 1, []⟩, []⟩ 2
    "# <: {oops}".data ⟨abMap, 1, []⟩
    (by decide) (by decide) (by decide) (by decide) (by decide)

/-- One scan step preserves the line-number invariants: every emitted
snippet spans at least one line number, and any active snippet started on a
line before the next one to be read. -/
theorem scanStep_inv (cs : CommentStyle) (q : CatMap) (st : ScanState) (n : Nat)
    (l : Str)
    (h1 : ∀ s ∈ st.results, s.startLine < s.endLine)
    (h2 : ∀ a, st.active = some a → a.startLine < n) :
    (∀ s ∈ (scanStep cs q st n l).results, s.startLine < s.endLine) ∧
      (∀ a, (scanStep cs q st n l).active = some a → a.startLine < n + 1) := by
  unfold scanStep
  by_cases hS : (parseLine cs st.parser l).isStart = true
  · simp only [hS, if_true]
    refine ⟨h1, ?_⟩
    rintro a ha
    simp only [Option.some.injEq] at ha
    rw [← ha]
    exact Nat.lt_succ_self n
  · simp only [hS, if_false, Bool.false_eq_true]
    cases hA : st.active with
    | none => exact ⟨h1, by simp⟩
    | some a =>
        by_cases hE : (parseLine cs st.parser l).isEnd = true
        · simp only [hE, if_true]
          refine ⟨?_, by simp⟩
          intro s hs
          rcases List.mem_append.mp hs with hmem | hmem
          · exact h1 s hmem
          · have hlt := h2 a hA
            by_cases hm : snippetMatches a.categories q = true
            · rw [if_pos hm] at hmem
              simp only [List.mem_singleton] at hmem
              rw [hmem]
              exact hlt
            · rw [if_neg hm] at hmem
              exact absurd hmem (List.not_mem_nil s)
        · by_cases hM : (parseLine cs st.parser l).state.inMultiline = true
          · simp only [hE, hM, if_true, if_false, Bool.false_eq_true]
            refine ⟨h1, ?_⟩
            rintro a' ha'
            simp only [Option.some.injEq] at ha'
            rw [← ha']
            exact Nat.lt_succ_of_lt (h2 a hA)
          · simp only [hE, hM, if_false, Bool.false_eq_true]
            refine ⟨h1, ?_⟩
            rintro a' ha'
            simp only [Option.some.injEq] at ha'
            rw [← ha']
            exact Nat.lt_succ_of_lt (h2 a hA)

/-- Scanning any run of lines preserves the emitted-span invariant. -/
theorem scanLines_startLine_lt (cs : CommentStyle) (q : CatMap) :
    ∀ (ls : List Str) (n : Nat) (st : ScanState),
      (∀ s ∈ st.results, s.startLine < s.endLine) →
      (∀ a, st.active = some a → a.startLine < n) →
      ∀ s ∈ (scanLines cs q ls n st).results, s.startLine < s.endLine := by
  intro ls
  induction ls with
  | nil => intro n st h1 _; exact h1
  | cons l rest ih =>
      intro n st h1 h2
      have hinv := scanStep_inv cs q st n l h1 h2
      exact ih (n + 1) (scanStep cs q st n l) hinv.1 hinv.2

/-- C9 counterexample: a close tag directly after the open tag emits a
snippet whose content is empty — a snippet need not have a line of body. -/
theorem C9_counterexample :
    extractSnippets typescriptStyle [openAB, closeE] [] =
      [⟨1, 2, abMap, []⟩] ∧
      (⟨1, 2, abMap, []⟩ : Snippet).content = [] := by
  decide

/-- C9 amended: every emitted snippet satisfies startLine < endLine, for
every comment style, input file and query; its body, however, may be
empty. -/
theorem C9_amended (cs : CommentStyle) (lines : List Str) (q : CatMap) :
    ∀ s ∈ extractSnippets cs lines q, s.startLine < s.endLine :=
  scanLines_startLine_lt cs q lines 1 ⟨initParser, none, []⟩
    (by simp) (by simp)

/-- C9 amended witness: the empty-body snippet of the two-line file still
satisfies the span inequality. -/
theorem C9_amended_witness :
    (⟨1, 2, abMap, []⟩ : Snippet) ∈
        extractSnippets typescriptStyle [openAB, closeE] [] ∧
      (1 : Nat) < 2 :=
  ⟨by decide,
    C9_amended typescriptStyle [openAB, closeE] [] ⟨1, 2, abMap, []⟩ (by decide)⟩

/-- joinLines distributes over appending line runs. -/
theorem joinLines_append (xs ys : List Str) :
    joinLines (xs ++ ys) = joinLines xs ++ joinLines ys := by
  induction xs with
  | nil => simp [joinLines]
  | cons x rest ih => simp [joinLines, ih]

/-- Scanning the interior of a block comment (no single-line tags, no
block-end token) only grows the buffer: the active snippet and the results
are untouched. -/
theorem scanLines_blockInterior (cs : CommentStyle) (q : CatMap)
    (mids : List Str)
    (h : ∀ m ∈ mids, containsTagFrom cs.single '>' m = false ∧
        containsTagFrom cs.single '<' m = false ∧
        containsSub cs.multiEnd m = false) :
    ∀ (rest : List Str) (n : Nat) (buf : Str) (f : Bool) (a : SnippetData)
      (res : List Snippet),
      scanLines cs q (mids ++ rest) n ⟨⟨true, buf, f⟩, some a, res⟩ =
        scanLines cs q rest (n + mids.length)
          ⟨⟨true, buf ++ joinLines mids, f⟩, some a, res⟩ := by
  induction mids with
  | nil => intro rest n buf f a res; simp [joinLines]
  | cons m ms ih =>
      intro rest n buf f a res
      obtain ⟨hm1, hm2, hm3⟩ := h m (by simp)
      have hms : ∀ x ∈ ms, containsTagFrom cs.single '>' x = false ∧
          containsTagFrom cs.single '<' x = false ∧
          containsSub cs.multiEnd x = false := fun x hx => h x (by simp [hx])
      have hstep := scanStep_skip cs q ⟨⟨true, buf, f⟩, some a, res⟩ n m
        ⟨true, buf ++ m ++ ['\n'], f⟩ a
        (parseLine_blockInterior cs ⟨true, buf, f⟩ m hm1 hm2 rfl hm3) rfl rfl
      calc scanLines cs q ((m :: ms) ++ rest) n ⟨⟨true, buf, f⟩, some a, res⟩
          = scanLines cs q (ms ++ rest) (n + 1)
              (scanStep cs q ⟨⟨true, buf, f⟩, some a, res⟩ n m) := rfl
        _ = scanLines cs q (ms ++ rest) (n + 1)
              ⟨⟨true, buf ++ m ++ ['\n'], f⟩, some a, res⟩ := by rw [hstep]
        _ = scanLines cs q rest (n + 1 + ms.length)
              ⟨⟨true, (buf ++ m ++ ['\n']) ++ joinLines ms, f⟩, some a, res⟩ :=
            ih hms rest (n + 1) (buf ++ m ++ ['\n']) f a res
        _ = scanLines cs q rest (n + (m :: ms).length)
              ⟨⟨true, buf ++ joinLines (m :: ms), f⟩, some a, res⟩ := by
            congr 1
            · simp
              omega
            · simp [joinLines, List.append_assoc]

/-- C6 counterexample: with a snippet open, a tagless block comment is
accumulated, yet the line containing the block-end token ends up inside the
emitted snippet's content. -/
theorem C6_counterexample :
    containsSub typescriptStyle.multiStart "/* hello".data = true ∧
      containsSub typescriptStyle.multiEnd "bye */".data = true ∧
      extractSnippets typescriptStyle
          [openAB, "/* hello".data, "bye */".data, closeE] [] =
        [⟨1, 4, abMap, ["bye */".data]⟩] ∧
      "bye */".data ∈ (⟨1, 4, abMap, ["bye */".data]⟩ : Snippet).content := by
  decide

/-- C6 amended: with a snippet open, the block-start line and the interior
lines of a block accumulation never reach the snippet's content, but when
the buffered text yields neither tag the line containing the block-end
token itself is appended to the body: the scan yields exactly one snippet
whose content is exactly that block-end line. -/
theorem C6_amended (cs : CommentStyle) (A B : CatMap)
    (openLine bs be closeLine : Str) (mids : List Str)
    (hO1 : containsTagFrom cs.single '>' openLine = true)
    (hO2 : parseTagJSON openLine = some A)
    (hbs1 : containsTagFrom cs.single '>' bs = false)
    (hbs2 : containsTagFrom cs.single '<' bs = false)
    (hbs3 : containsSub cs.multiStart bs = true)
    (hm : ∀ m ∈ mids, containsTagFrom cs.single '>' m = false ∧
        containsTagFrom cs.single '<' m = false ∧
        containsSub cs.multiEnd m = false)
    (hbe1 : containsTagFrom cs.single '>' be = false)
    (hbe2 : containsTagFrom cs.single '<' be = false)
    (hbe3 : containsSub cs.multiEnd be = true)
    (hfs : findBlockTag '>' (joinLines (bs :: mids ++ [be])) = none)
    (hfe : findBlockTag '<' (joinLines (bs :: mids ++ [be])) = none)
    (hC0 : containsTagFrom cs.single '>' closeLine = false)
    (hC1 : containsTagFrom cs.single '<' closeLine = true)
    (hC2 : parseTagJSON closeLine = some B) :
    extractSnippets cs (openLine :: bs :: (mids ++ [be, closeLine])) [] =
      [⟨1, mids.length + 4, A, [be]⟩] := by
  have hbuf : joinLines (bs :: mids ++ [be]) =
      ((bs ++ ['\n']) ++ joinLines mids) ++ be ++ ['\n'] := by
    simp [joinLines, joinLines_append, List.append_assoc]
  rw [hbuf] at hfs hfe
  have e1 := scanStep_open cs [] ⟨initParser, none, []⟩ 1 openLine initParser A
    (parseLine_open cs initParser openLine A hO1 hO2)
  have e2 := scanStep_skip cs [] ⟨initParser, some ⟨A, 1, []⟩, []⟩ (1 + 1) bs
    ⟨true, bs ++ ['\n'], false⟩ ⟨A, 1, []⟩
    (parseLine_blockEnter cs initParser bs hbs1 hbs2 rfl hbs3) rfl rfl
  have e4 := scanStep_append cs []
    ⟨⟨true, (bs ++ ['\n']) ++ joinLines mids, false⟩, some ⟨A, 1, []⟩, []⟩
    (1 + 1 + 1 + mids.length) be
    ⟨false, ((bs ++ ['\n']) ++ joinLines mids) ++ be ++ ['\n'], false⟩ ⟨A, 1, []⟩
    (parseLine_blockResolveNone cs ⟨true, (bs ++ ['\n']) ++ joinLines mids, false⟩
      be hbe1 hbe2 rfl hbe3 hfs hfe) rfl rfl
  have e5 := scanStep_close cs []
    ⟨⟨false, ((bs ++ ['\n']) ++ joinLines mids) ++ be ++ ['\n'], false⟩,
      some ⟨A, 1, [] ++ [be]⟩, []⟩
    (1 + 1 + 1 + mids.length + 1) closeLine
    ⟨false, ((bs ++ ['\n']) ++ joinLines mids) ++ be ++ ['\n'], false⟩ B
    ⟨A, 1, [] ++ [be]⟩
    (parseLine_close cs _ closeLine B hC0 hC1 hC2) rfl
  calc extractSnippets cs (openLine :: bs :: (mids ++ [be, closeLine])) []
      = (scanLines cs [] (mids ++ [be, closeLine]) (1 + 1 + 1)
          (scanStep cs []
            (scanStep cs [] ⟨initParser, none, []⟩ 1 openLine) (1 + 1) bs)).results := rfl
    _ = (scanLines cs [] (mids ++ [be, closeLine]) (1 + 1 + 1)
          ⟨⟨true, bs ++ ['\n'], false⟩, some ⟨A, 1, []⟩, []⟩).results := by
        rw [e1, e2]
    _ = (scanLines cs [] [be, closeLine] (1 + 1 + 1 + mids.length)
          ⟨⟨true, (bs ++ ['\n']) ++ joinLines mids, false⟩,
            some ⟨A, 1, []⟩, []⟩).results := by
        rw [scanLines_blockInterior cs [] mids hm [be, closeLine] (1 + 1 + 1)
          (bs ++ ['\n']) false ⟨A, 1, []⟩ []]
    _ = (scanLines cs [] [closeLine] (1 + 1 + 1 + mids.length + 1)
          ⟨⟨false, ((bs ++ ['\n']) ++ joinLines mids) ++ be ++ ['\n'], false⟩,
            some ⟨A, 1, [] ++ [be]⟩, []⟩).results := by
        rw [scanLines_cons, e4]
    _ = [⟨1, mids.length + 4, A, [be]⟩] := by
        rw [scanLines_cons, e5, scanLines_nil]
        have h4 : 1 + 1 + 1 + mids.length + 1 = mids.length + 4 := by omega
        simp [snippetMatches_nil, h4]

/-- C6 amended witness: a block with no interior lines; the block-end line
lands in the body. -/
theorem C6_amended_witness :
    extractSnippets typescriptStyle
        [openAB, "/* hello".data, "bye */".data, closeE] [] =
      [⟨1, 4, abMap, ["bye */".data]⟩] := by
  have h := C6_amended typescriptStyle abMap [] openAB "/* hello".data
    "bye */".data closeE []
    (by decide) (by decide) (by decide) (by decide) (by decide) (by decide)
    (by decide) (by decide) (by decide) (by decide) (by decide) (by decide)
    (by decide) (by decide)
  simpa using h

/-- C7 counterexample: a block comment starting on line 1 whose buffer
yields an open tag on resolution records line 2 — the line containing the
block-end token — as the snippet's start line, not the buffer's start
line 1. -/
theorem C7_counterexample :
    containsSub typescriptStyle.multiStart "/*".data = true ∧
      containsSub typescriptStyle.multiEnd (">: ".data ++ jsonAB ++ " */".data) = true ∧
      extractSnippets typescriptStyle
          ["/*".data, ">: ".data ++ jsonAB ++ " */".data, "body".data, closeE] [] =
        [⟨2, 4, abMap, ["body".data]⟩] ∧
      (2 : Nat) ≠ 1 := by
  decide

/-- C7 amended: when a block accumulation resolves on the line containing
the block-end token, a buffered open tag starts the snippet at that line's
number, and a buffered close tag ends the active snippet at that line's
number — not at the buffer's start line. -/
theorem C7_amended (cs : CommentStyle) (q : CatMap) (st : ScanState) (n : Nat)
    (l : Str)
    (hp : st.parser.inMultiline = true)
    (h1 : containsTagFrom cs.single '>' l = false)
    (h2 : containsTagFrom cs.single '<' l = false)
    (hme : containsSub cs.multiEnd l = true) :
    (∀ m d, findBlockTag '>' (st.parser.buffer ++ l ++ ['\n']) = some m →
        parseTagJSON m = some d →
        (scanStep cs q st n l).active = some ⟨d, n, []⟩) ∧
      (∀ a m d, st.active = some a →
        findBlockTag '>' (st.parser.buffer ++ l ++ ['\n']) = none →
        findBlockTag '<' (st.parser.buffer ++ l ++ ['\n']) = some m →
        parseTagJSON m = some d →
        (scanStep cs q st n l).results =
          st.results ++
            if snippetMatches a.categories q then
              [⟨a.startLine, n, a.categories, a.lines⟩] else []) := by
  constructor
  · intro m d hf hd
    rw [scanStep_open cs q st n l ⟨false, st.parser.buffer ++ l ++ ['\n'], true⟩ d
      (parseLine_blockResolveOpen cs st.parser l m d h1 h2 hp hme hf hd)]
  · intro a m d ha hfs hfe hd
    rw [scanStep_close cs q st n l
      ⟨false, st.parser.buffer ++ l ++ ['\n'], st.parser.foundStartTag⟩ d a
      (parseLine_blockResolveClose cs st.parser l m d h1 h2 hp hme hfs hfe hd) ha]

/-- C7 amended witness: the block of lines 1 and 2 resolves to an open tag;
the new snippet starts at line 2. -/
theorem C7_amended_witness :
    (∀ m d, findBlockTag '>'
          ((⟨true, "/*".data ++ ['\n'], false⟩ : ParserState).buffer ++
            (">: ".data ++ jsonAB ++ " */".data) ++ ['\n']) = some m →
        parseTagJSON m = some d →
        (scanStep typescriptStyle []
            ⟨⟨true, "/*".data ++ ['\n'], false⟩, none, []⟩ 2
            (">: ".data ++ jsonAB ++ " */".data)).active = some ⟨d, 2, []⟩) ∧
      (∀ a m d,
        (⟨⟨true, "/*".data ++ ['\n'], false⟩, none, []⟩ : ScanState).active = some a →
        findBlockTag '>'
          ((⟨true, "/*".data ++ ['\n'], false⟩ : ParserState).buffer ++
            (">: ".data ++ jsonAB ++ " */".data) ++ ['\n']) = none →
        findBlockTag '<'
          ((⟨true, "/*".data ++ ['\n'], false⟩ : ParserState).buffer ++
            (">: ".data ++ jsonAB ++ " */".data) ++ ['\n']) = some m →
        parseTagJSON m = some d →
        (scanStep typescriptStyle []
            ⟨⟨true, "/*".data ++ ['\n'], false⟩, none, []⟩ 2
            (">: ".data ++ jsonAB ++ " */".data)).results =
          ([] : List Snippet) ++
            if snippetMatches a.categories [] then
              [⟨a.startLine, 2, a.categories, a.lines⟩] else []) :=
  C7_amended typescriptStyle [] ⟨⟨true, "/*".data ++ ['\n'], false⟩, none, []⟩ 2
    (">: ".data ++ jsonAB ++ " */".data)
    (by decide) (by decide) (by decide) (by decide)

/-- C10 witness: categories m (empty domains) and f (domain x) against the
query requesting m with domain y and f with domain x. -/
theorem C10_witness :
    snippetMatches [("m".data, ([] : List Str)), ("f".data, ["x".data])]
        [("m".data, ["y".data]), ("f".data, ["x".data])] = true ↔
      ∃ p ∈ [("m".data, ([] : List Str)), ("f".data, ["x".data])], p.2 ≠ [] ∧
        ∃ rds, lookupCat [("m".data, ["y".data]), ("f".data, ["x".data])] p.1 = some rds ∧
          ∃ d ∈ p.2, d ∈ rds :=
  C10_empty_snippet_domains _ _ ("m".data) (by decide) (by decide) (by decide)
    (by decide)

end Brio
